import Mathlib

/-!
Verification of the cross-chain Merkle proof subsystem (src/crosschain.cpp).

The development shallowly embeds the source's proof-composition engine:
`CalculateProofRoot`, `ScanNotarisationsFromHeight`, `GetCrossChainProof`
and `GetAssetchainProof`.  Hashes are modelled as natural numbers with the
all-zero hash `uint256()` as `0`, and the two-child hash combiner (SHA256d
in the implementation) is an explicit parameter `hc` of every Merkle
operation, since nothing in the engine depends on its structure.
Chain state (block index, notarisation store, transaction lookup) is a
record of lookup functions, mirroring the external collaborators the
implementation calls into.
-/

/-- A 32-byte hash value; `0` models the all-zero `uint256()` (the null hash). -/
abbrev Hash := Nat

/-- Modelled from the spec: the two-child hash combiner used by all Merkle
primitives (`Hash(a, b)` in the implementation, an external collaborator). -/
abbrev Hc := Hash → Hash → Hash

/-- Body of a notarisation record, as consumed by crosschain.cpp
(symbol, ccId, height, MoM, MoMDepth, txHash). -/
structure NotarisationData where
  symbol : String
  ccId : Nat
  height : Nat
  MoM : Hash
  MoMDepth : Nat
  txHash : Hash
  deriving DecidableEq

/-- A notarisation as stored: the pair of its hub txid (`first`) and its body
(`second`), matching the C++ `std::pair<uint256, NotarisationData>`. -/
abbrev Notarisation := Hash × NotarisationData

/-- Modelled from the spec: the external chain/store collaborators of the
engine (chain index, notarisation store, transaction lookup, §6 of the spec).
Block-index data of a block in the active chain is addressed by its height;
`txBlockHash`/`blockHeightOf` keep the blockhash indirection of
`GetTransaction` + `mapBlockIndex` used by `GetAssetchainProof`. -/
structure Chain where
  tipHeight : Nat
  notarisations : Nat → Option (List Notarisation)
  authority : String → Nat
  ownSymbol : String
  txBlockHash : Hash → Option Hash
  blockHeightOf : Hash → Nat
  blockMerkleRoot : Nat → Hash
  blockTxs : Nat → Option (List Hash)
  confirmedHeight : Hash → Option Nat

/-- `int NOTARISATION_SCAN_LIMIT_BLOCKS = 1440;` -/
def NOTARISATION_SCAN_LIMIT_BLOCKS : Nat := 1440

/-- Modelled from the spec: one level of Bitcoin-convention Merkle tree
construction — pair up adjacent leaves, duplicating the last odd leaf
(`BuildMerkleTree`, an external Merkle primitive). -/
def merkleLevel (hc : Hc) : List Hash → List Hash
  | [] => []
  | [a] => [hc a a]
  | a :: b :: rest => hc a b :: merkleLevel hc rest

/-- Fuel-driven worker for `GetMerkleRoot`; the fuel only needs to cover the
number of halving rounds, so the leaf count is always enough. -/
def merkleRootAux (hc : Hc) : Nat → List Hash → Hash
  | _, [] => 0
  | _, [a] => a
  | 0, _ => 0
  | fuel+1, l => merkleRootAux hc fuel (merkleLevel hc l)

/-- Modelled from the spec: `GetMerkleRoot(moms)` — Bitcoin-convention Merkle
root of a leaf vector; null (`0`) for an empty vector. -/
def GetMerkleRoot (hc : Hc) (leaves : List Hash) : Hash :=
  merkleRootAux hc leaves.length leaves

/-- Fuel-driven worker for `merkleBranch`. -/
def merkleBranchAux (hc : Hc) : Nat → List Hash → Nat → List Hash
  | 0, _, _ => []
  | fuel+1, leaves, idx =>
    if leaves.length ≤ 1 then []
    else
      leaves.getD (min (idx ^^^ 1) (leaves.length - 1)) 0 ::
        merkleBranchAux hc fuel (merkleLevel hc leaves) (idx / 2)

/-- Modelled from the spec: `GetMerkleBranch(nIndex, nLeaves, tree)` /
`CBlock::GetMerkleBranch` — the sibling list for leaf `idx`:
at each level push the sibling `min(idx XOR 1, size - 1)` and halve the index. -/
def merkleBranch (hc : Hc) (leaves : List Hash) (idx : Nat) : List Hash :=
  merkleBranchAux hc leaves.length leaves idx

/-- Modelled from the spec: `CBlock::CheckMerkleBranch(hash, branch, nIndex)` —
fold the siblings onto the leaf following the bitwise path of the index. -/
def CheckMerkleBranch (hc : Hc) : Hash → List Hash → Nat → Hash
  | h, [], _ => h
  | h, s :: rest, idx =>
    CheckMerkleBranch hc (if idx % 2 = 1 then hc s h else hc h s) rest (idx / 2)

/-- Modelled from the spec: `SafeCheckMerkleBranch` — same semantics as
`CheckMerkleBranch` (the malformed-index guard concerns the C++ `-1`
sentinel, which does not arise with a natural-number index). -/
def SafeCheckMerkleBranch (hc : Hc) (h : Hash) (branch : List Hash) (idx : Nat) : Hash :=
  CheckMerkleBranch hc h branch idx

/-- Modelled from the spec: the `MerkleBranch` value (cc/eval.h) — an ordered
sibling list paired with a leaf index. -/
structure MerkleBranch where
  nIndex : Nat
  branch : List Hash
  deriving DecidableEq

/-- Modelled from the spec: `MerkleBranch::Exec(hash)` — run the branch on a
leaf, producing the claimed root. -/
def MerkleBranch.Exec (hc : Hc) (b : MerkleBranch) (h : Hash) : Hash :=
  SafeCheckMerkleBranch hc h b.branch b.nIndex

/-- Modelled from the spec: branch composition (`MerkleBranch::operator<<`):
sibling lists concatenate (lower first) and the combined index is
`(upper_index <<< len(lower_siblings)) ||| lower_index`. -/
def MerkleBranch.comp (lower upper : MerkleBranch) : MerkleBranch :=
  ⟨(upper.nIndex <<< lower.branch.length) ||| lower.nIndex,
    lower.branch ++ upper.branch⟩

/-- `TxProof`: `(notarisationTxid, MerkleBranch)`. -/
abbrev TxProof := Hash × MerkleBranch

/-- Error kinds raised (as exceptions) by the engine, per §7 of the spec. -/
inductive PErr where
  | TxNotFound
  | TxInMempool
  | NotarisationNotConfirmed
  | MerkleInconsistency
  | BlockUnavailable
  | TxNotInBlock
  | MerkleTxToBlock
  | ProofSelfCheck
  | SourceNotarisationMissing
  | TargetNotarisationNotFound
  | EmptyProofRoot
  | MomNotInWindow
  | CrossProofSelfCheck
  deriving DecidableEq

/-- The notarisations of the block at backward-scan offset `i` from
`kmdHeight`: `GetBlockNotarisations(*chainActive[kmdHeight - i]->phashBlock)`,
with a failed lookup (`continue` in the source) read as the empty list. -/
def blockNotas (c : Chain) (kmdHeight : Int) (i : Nat) : List Notarisation :=
  (c.notarisations (kmdHeight - (i : Int)).toNat).getD []

/-- First notarisation of `symbol` in a block's list — the first inner
`BOOST_FOREACH` of `CalculateProofRoot`, which `break`s at the first
`strcmp(nota.second.symbol, symbol) == 0` hit. -/
def findOwn (symbol : String) (ns : List Notarisation) : Option Notarisation :=
  ns.find? (fun n => n.2.symbol == symbol)

/-- MoMs collected from one block by `CalculateProofRoot`: those of
notarisations whose symbol maps to `authority` and whose `ccId` is
`targetCCid`, in discovery order (second inner `BOOST_FOREACH`). -/
def blockMoms (c : Chain) (authority targetCCid : Nat) (ns : List Notarisation) : List Hash :=
  ns.filterMap (fun n =>
    if c.authority n.2.symbol = authority ∧ n.2.ccId = targetCCid
    then some n.2.MoM else none)

/-- Result of `CalculateProofRoot`: the returned root and the two by-reference
outputs, plus two ghost observations of the scan used only in theorems:
the final value of `seenOwnNotarisations` and the offset of the block at
which `goto end` fired (`none` when the loop ran out). -/
structure PRResult where
  root : Hash
  moms : List Hash
  destNotarisationTxid : Hash
  seenFinal : Nat
  endBlock : Option Nat
  deriving DecidableEq

/-- The backward scan loop of `CalculateProofRoot`
(`for (int i=0; i<NOTARISATION_SCAN_LIMIT_BLOCKS; i++)`), with `fuel` the
remaining iteration count, `i` the current offset, `seen` the running
`seenOwnNotarisations`, and `moms`/`dest` the by-reference accumulators.
Loop exhaustion and the `i > kmdHeight` break both fall through to the
clearing epilogue (`destNotarisationTxid = uint256(); moms.clear();`);
`goto end` returns `GetMerkleRoot(moms)` with the accumulators as they stand. -/
def calcScan (c : Chain) (hc : Hc) (symbol : String) (targetCCid : Nat)
    (kmdHeight : Int) (authority : Nat) :
    Nat → Nat → Nat → List Hash → Hash → PRResult
  | 0, _, seen, _, _ => ⟨0, [], 0, seen, none⟩
  | fuel+1, i, seen, moms, dest =>
    if (i : Int) > kmdHeight then ⟨0, [], 0, seen, none⟩
    else
      let ns := blockNotas c kmdHeight i
      match findOwn symbol ns with
      | some n =>
        if seen + 1 = 2 then ⟨GetMerkleRoot hc moms, moms, dest, 2, some i⟩
        else
          calcScan c hc symbol targetCCid kmdHeight authority fuel (i+1) (seen+1)
            (if seen + 1 = 1 then moms ++ blockMoms c authority targetCCid ns else moms)
            (if seen + 1 = 1 then n.1 else dest)
      | none =>
        calcScan c hc symbol targetCCid kmdHeight authority fuel (i+1) seen
          (if seen = 1 then moms ++ blockMoms c authority targetCCid ns else moms)
          dest

/-- `CalculateProofRoot(symbol, targetCCid, kmdHeight, moms, destNotarisationTxid)`
with ghost observations. `moms0`/`dest0` are the values held by the caller's
by-reference arguments on entry; the `targetCCid < 2` and height-range guards
return the null root leaving both untouched. -/
def CalculateProofRootFull (c : Chain) (hc : Hc) (symbol : String)
    (targetCCid : Nat) (kmdHeight : Int) (moms0 : List Hash) (dest0 : Hash) : PRResult :=
  if targetCCid < 2 then ⟨0, moms0, dest0, 0, none⟩
  else if kmdHeight < 0 ∨ (c.tipHeight : Int) < kmdHeight then ⟨0, moms0, dest0, 0, none⟩
  else calcScan c hc symbol targetCCid kmdHeight (c.authority symbol)
    NOTARISATION_SCAN_LIMIT_BLOCKS 0 0 moms0 dest0

/-- `CalculateProofRoot` as observed by callers: the returned root and the two
by-reference outputs. -/
def CalculateProofRoot (c : Chain) (hc : Hc) (symbol : String)
    (targetCCid : Nat) (kmdHeight : Int) (moms0 : List Hash) (dest0 : Hash) :
    Hash × List Hash × Hash :=
  let r := CalculateProofRootFull c hc symbol targetCCid kmdHeight moms0 dest0
  (r.root, r.moms, r.destNotarisationTxid)

/-- The loop of `ScanNotarisationsFromHeight`: scan `fuel` consecutive block
heights starting at `h`, returning the first height holding a notarisation
accepted by `f`, together with that notarisation; `(0, none)` when the range
runs out (the source's `return 0`). -/
def scanGo (c : Chain) (f : Notarisation → Bool) : Nat → Nat → Nat × Option Notarisation
  | _, 0 => (0, none)
  | h, fuel+1 =>
    match ((c.notarisations h).getD []).find? f with
    | some n => (h, some n)
    | none => scanGo c f (h+1) fuel

/-- `ScanNotarisationsFromHeight(nHeight, f, found)`: forward scan over
heights `nHeight ≤ h < min(nHeight + NOTARISATION_SCAN_LIMIT_BLOCKS, tip)`;
the returned `Nat` is the source's `int` return value (`0` on failure) and
the `Option` is the `found` out-parameter when a hit occurred. -/
def ScanNotarisationsFromHeight (c : Chain) (nHeight : Nat) (f : Notarisation → Bool) :
    Nat × Option Notarisation :=
  scanGo c f nHeight
    (min (nHeight + NOTARISATION_SCAN_LIMIT_BLOCKS) c.tipHeight - nHeight)

/-- The target predicate of `GetCrossChainProof`:
`strcmp(nota.second.symbol, targetSymbol) == 0`. -/
def ccpIsTarget (targetSymbol : String) (n : Notarisation) : Bool :=
  n.2.symbol == targetSymbol

/-- `GetCrossChainProof(txid, targetSymbol, targetCCid, assetChainProof)`.
Exceptions become `Except.error`; the diagnostic prints and the
`/home/cc/momom_on_kmd` file write are side effects with no bearing on the
result and are not modelled. -/
def GetCrossChainProof (c : Chain) (hc : Hc) (txid : Hash) (targetSymbol : String)
    (targetCCid : Nat) (assetChainProof : TxProof) : Except PErr TxProof :=
  let MoM := assetChainProof.2.Exec hc txid
  match c.confirmedHeight assetChainProof.1 with
  | none => .error .SourceNotarisationMissing
  | some kmdHeight0 =>
    match ScanNotarisationsFromHeight c kmdHeight0 (ccpIsTarget targetSymbol) with
    | (0, _) => .error .TargetNotarisationNotFound
    | (kmdHeight+1, _) =>
      let r := CalculateProofRootFull c hc targetSymbol targetCCid
        ((kmdHeight + 1 : Nat) : Int) [] 0
      if r.root = 0 then .error .EmptyProofRoot
      else
        match r.moms.findIdx? (· == MoM) with
        | none => .error .MomNotInWindow
        | some nIndex =>
          let vBranch := merkleBranch hc r.moms nIndex
          let newBranch := assetChainProof.2.comp ⟨nIndex, vBranch⟩
          if newBranch.Exec hc txid ≠ r.root then .error .CrossProofSelfCheck
          else .ok (r.destNotarisationTxid, newBranch)

/-- `IsSameAssetChain(nota)`: the notarisation's symbol equals this
assetchain's own symbol (`ASSETCHAINS_SYMBOL`). -/
def IsSameAssetChain (c : Chain) (n : Notarisation) : Bool :=
  n.2.symbol == c.ownSymbol

/-- The target predicate of `GetAssetchainProof`'s scan: an own-symbol
notarisation whose height is at least the transaction's block height. -/
def apIsTarget (c : Chain) (h : Nat) (n : Notarisation) : Bool :=
  IsSameAssetChain c n && decide (h ≤ n.2.height)

/-- The MoM leaf window reconstructed by `GetAssetchainProof`:
`hashMerkleRoot` of blocks `nota.height, nota.height - 1, …,
nota.height - MoMDepth + 1`, most recent first. -/
def apLeaves (c : Chain) (nota : Notarisation) : List Hash :=
  (List.range nota.2.MoMDepth).map (fun i => c.blockMerkleRoot (nota.2.height - i))

/-- `GetAssetchainProof(hash)`.  The pruned-block guard and a failing
`ReadBlockFromDisk` both surface as `BlockUnavailable` (`blockTxs` is
`none`); block-index Merkle-root and height lookups are identified with
their active-chain values, as the source assumes. -/
def GetAssetchainProof (c : Chain) (hc : Hc) (hash : Hash) : Except PErr TxProof :=
  match c.txBlockHash hash with
  | none => .error .TxNotFound
  | some blockHash =>
    if blockHash = 0 then .error .TxInMempool
    else
      let h := c.blockHeightOf blockHash
      match ScanNotarisationsFromHeight c h (apIsTarget c h) with
      | (0, _) => .error .NotarisationNotConfirmed
      | (_+1, none) => .error .NotarisationNotConfirmed
      | (_+1, some nota) =>
        let nIndex := nota.2.height - h
        let branch := merkleBranch hc (apLeaves c nota) nIndex
        if SafeCheckMerkleBranch hc (c.blockMerkleRoot h) branch nIndex ≠ nota.2.MoM
        then .error .MerkleInconsistency
        else
          match c.blockTxs h with
          | none => .error .BlockUnavailable
          | some txs =>
            match txs.findIdx? (· == hash) with
            | none => .error .TxNotInBlock
            | some nTxIndex =>
              let txBranch := merkleBranch hc txs nTxIndex
              if c.blockMerkleRoot h ≠ CheckMerkleBranch hc hash txBranch nTxIndex
              then .error .MerkleTxToBlock
              else
                let nIndex2 := (nIndex <<< txBranch.length) + nTxIndex
                let branch2 := txBranch ++ branch
                if nota.2.MoM ≠ CheckMerkleBranch hc hash branch2 nIndex2
                then .error .ProofSelfCheck
                else .ok (nota.2.txHash, ⟨nIndex2, branch2⟩)

/-- A concrete hash combiner for the worked examples below. -/
def hcW : Hc := fun a b => 100 * a + b

/-- Example notarisation of chain B on the hub at height 2 (MoM 9). -/
def nB1 : Notarisation := (33, ⟨"B", 2, 0, 9, 1, 33⟩)

/-- Example notarisation of chain A on the hub at height 1 (MoM 7). -/
def nA0 : Notarisation := (40, ⟨"A", 2, 1, 7, 1, 40⟩)

/-- Example earlier notarisation of chain B on the hub at height 0. -/
def nB0 : Notarisation := (30, ⟨"B", 2, 0, 8, 1, 30⟩)

/-- A concrete hub chain: B-notarisations at heights 0 and 2 bracketing an
A-notarisation at height 1; the A-notarisation that anchors the source proof
confirms at height 2 (txid 50). -/
def cH : Chain where
  tipHeight := 3
  notarisations := fun h =>
    if h = 0 then some [nB0] else if h = 1 then some [nA0]
    else if h = 2 then some [nB1] else none
  authority := fun _ => 0
  ownSymbol := "KMD"
  txBlockHash := fun _ => none
  blockHeightOf := fun _ => 0
  blockMerkleRoot := fun _ => 0
  blockTxs := fun _ => none
  confirmedHeight := fun t => if t = 50 then some 2 else none

/-- Own notarisation used by the assetchain example: height 1, MoM 5
(the Merkle root of the single block at height 1), depth 1, txHash 99. -/
def notaA : Notarisation := (77, ⟨"A", 2, 1, 5, 1, 99⟩)

/-- A concrete assetchain: transaction 5 is the only transaction of block 1,
and the own notarisation `notaA` sits in block 1. -/
def cA : Chain where
  tipHeight := 2
  notarisations := fun h => if h = 1 then some [notaA] else none
  authority := fun _ => 0
  ownSymbol := "A"
  txBlockHash := fun t => if t = 5 then some 10 else none
  blockHeightOf := fun bh => if bh = 10 then 1 else 0
  blockMerkleRoot := fun h => if h = 1 then 5 else 0
  blockTxs := fun h => if h = 1 then some [5] else none
  confirmedHeight := fun _ => none

/-- Variant own notarisation whose recorded MoM (6) disagrees with the
locally reconstructed root (5). -/
def notaA8 : Notarisation := (77, ⟨"A", 2, 1, 6, 1, 99⟩)

/-- `cA` with the corrupted notarisation `notaA8`: the block→MoM cross-check
must fail. -/
def cA8 : Chain where
  tipHeight := 2
  notarisations := fun h => if h = 1 then some [notaA8] else none
  authority := fun _ => 0
  ownSymbol := "A"
  txBlockHash := fun t => if t = 5 then some 10 else none
  blockHeightOf := fun bh => if bh = 10 then 1 else 0
  blockMerkleRoot := fun h => if h = 1 then 5 else 0
  blockTxs := fun h => if h = 1 then some [5] else none
  confirmedHeight := fun _ => none

/-- A hub chain whose only block with two notarisations of symbol A is the
block at height 3 — and it is the only block with any notarisations at all. -/
def cC7 : Chain where
  tipHeight := 3
  notarisations := fun h =>
    if h = 3 then some [(41, ⟨"A", 2, 0, 11, 1, 41⟩), (42, ⟨"A", 2, 0, 12, 1, 42⟩)]
    else none
  authority := fun _ => 0
  ownSymbol := "KMD"
  txBlockHash := fun _ => none
  blockHeightOf := fun _ => 0
  blockMerkleRoot := fun _ => 0
  blockTxs := fun _ => none
  confirmedHeight := fun _ => none

/-- Notarisation of symbol X used by the forward-scan examples. -/
def nX : Notarisation := (8, ⟨"X", 2, 0, 0, 1, 8⟩)

/-- Predicate matching symbol X, used by the forward-scan examples. -/
def isX : Notarisation → Bool := fun n => n.2.symbol == "X"

/-- Forward-scan example chain: the only notarisation sits in the tip block
(height 2), which the scan's window excludes. -/
def cS : Chain where
  tipHeight := 2
  notarisations := fun h => if h = 2 then some [nX] else none
  authority := fun _ => 0
  ownSymbol := "A"
  txBlockHash := fun _ => none
  blockHeightOf := fun _ => 0
  blockMerkleRoot := fun _ => 0
  blockTxs := fun _ => none
  confirmedHeight := fun _ => none

/-- `cS` with the tip-block notarisation removed: indistinguishable from `cS`
for any scan that starts below the tip. -/
def cSbare : Chain where
  tipHeight := 2
  notarisations := fun _ => none
  authority := fun _ => 0
  ownSymbol := "A"
  txBlockHash := fun _ => none
  blockHeightOf := fun _ => 0
  blockMerkleRoot := fun _ => 0
  blockTxs := fun _ => none
  confirmedHeight := fun _ => none

/-- Forward-scan example chain with a match at genesis height 0. -/
def cS0 : Chain where
  tipHeight := 2
  notarisations := fun h => if h = 0 then some [nX] else none
  authority := fun _ => 0
  ownSymbol := "A"
  txBlockHash := fun _ => none
  blockHeightOf := fun _ => 0
  blockMerkleRoot := fun _ => 0
  blockTxs := fun _ => none
  confirmedHeight := fun _ => none


/-- MoMs collected from `d` consecutive scan offsets starting at `j`,
in discovery order. -/
def momsRangeAux (c : Chain) (a cc : Nat) (kh : Int) : Nat → Nat → List Hash
  | _, 0 => []
  | j, d+1 => blockMoms c a cc (blockNotas c kh j) ++ momsRangeAux c a cc kh (j+1) d

/-- MoMs collected from the scan offsets `j1 ≤ j < j2`, in discovery order. -/
def momsRange (c : Chain) (a cc : Nat) (kh : Int) (j1 j2 : Nat) : List Hash :=
  momsRangeAux c a cc kh j1 (j2 - j1)

theorem lor_shiftLeft_distrib (a b n : Nat) :
    (a ||| b) <<< n = (a <<< n) ||| (b <<< n) := by
  apply Nat.eq_of_testBit_eq
  intro i
  simp only [Nat.testBit_shiftLeft, Nat.testBit_lor]
  rcases Nat.decLe n i with h | h <;> simp [h]

theorem calcScan_exhaust (c : Chain) (hc : Hc) (sym : String) (cc : Nat)
    (kh : Int) (a : Nat) :
    ∀ fuel i seen moms dest,
      (calcScan c hc sym cc kh a fuel i seen moms dest).endBlock = none →
      calcScan c hc sym cc kh a fuel i seen moms dest =
        ⟨0, [], 0, (calcScan c hc sym cc kh a fuel i seen moms dest).seenFinal, none⟩ := by
  intro fuel
  induction fuel with
  | zero => intro i seen moms dest _; rfl
  | succ f ih =>
    intro i seen moms dest h
    by_cases hbr : (i : Int) > kh
    · simp [calcScan, hbr]
    · cases hfo : findOwn sym (blockNotas c kh i) with
      | some n =>
        by_cases hs : seen + 1 = 2
        · simp [calcScan, hbr, hfo, hs] at h
        · simp only [calcScan, if_neg hbr, hfo, if_neg hs] at h ⊢
          exact ih _ _ _ _ h
      | none =>
        simp only [calcScan, if_neg hbr, hfo] at h ⊢
        exact ih _ _ _ _ h

theorem calcScan_root_seen (c : Chain) (hc : Hc) (sym : String) (cc : Nat)
    (kh : Int) (a : Nat) :
    ∀ fuel i seen moms dest,
      (calcScan c hc sym cc kh a fuel i seen moms dest).root ≠ 0 →
      (calcScan c hc sym cc kh a fuel i seen moms dest).seenFinal = 2 := by
  intro fuel
  induction fuel with
  | zero => intro i seen moms dest h; exact absurd rfl h
  | succ f ih =>
    intro i seen moms dest h
    by_cases hbr : (i : Int) > kh
    · simp [calcScan, hbr] at h
    · cases hfo : findOwn sym (blockNotas c kh i) with
      | some n =>
        by_cases hs : seen + 1 = 2
        · simp [calcScan, hbr, hfo, hs]
        · simp only [calcScan, if_neg hbr, hfo, if_neg hs] at h ⊢
          exact ih _ _ _ _ h
      | none =>
        simp only [calcScan, if_neg hbr, hfo] at h ⊢
        exact ih _ _ _ _ h

theorem calcScan_step_own1 (c : Chain) (hc : Hc) (sym : String) (cc : Nat)
    (kh : Int) (a : Nat) (fuel i : Nat) (moms : List Hash) (dest : Hash)
    (n : Notarisation) (hfo : findOwn sym (blockNotas c kh i) = some n)
    (hbr : ¬ ((i : Int) > kh)) :
    calcScan c hc sym cc kh a (fuel+1) i 1 moms dest =
      ⟨GetMerkleRoot hc moms, moms, dest, 2, some i⟩ := by
  simp [calcScan, hbr, hfo]

theorem calcScan_step_own0 (c : Chain) (hc : Hc) (sym : String) (cc : Nat)
    (kh : Int) (a : Nat) (fuel i : Nat) (moms : List Hash) (dest : Hash)
    (n : Notarisation) (hfo : findOwn sym (blockNotas c kh i) = some n)
    (hbr : ¬ ((i : Int) > kh)) :
    calcScan c hc sym cc kh a (fuel+1) i 0 moms dest =
      calcScan c hc sym cc kh a fuel (i+1) 1
        (moms ++ blockMoms c a cc (blockNotas c kh i)) n.1 := by
  simp [calcScan, hbr, hfo]

theorem calcScan_step_none (c : Chain) (hc : Hc) (sym : String) (cc : Nat)
    (kh : Int) (a : Nat) (fuel i seen : Nat) (moms : List Hash) (dest : Hash)
    (hfo : findOwn sym (blockNotas c kh i) = none)
    (hbr : ¬ ((i : Int) > kh)) :
    calcScan c hc sym cc kh a (fuel+1) i seen moms dest =
      calcScan c hc sym cc kh a fuel (i+1) seen
        (if seen = 1 then moms ++ blockMoms c a cc (blockNotas c kh i) else moms) dest := by
  simp [calcScan, hbr, hfo]

theorem calcScan_run1 (c : Chain) (hc : Hc) (sym : String) (cc : Nat)
    (kh : Int) (a : Nat) :
    ∀ d fuel i (moms : List Hash) (dest : Hash) (n2 : Notarisation),
      (∀ k, k < d → findOwn sym (blockNotas c kh (i + k)) = none) →
      findOwn sym (blockNotas c kh (i + d)) = some n2 →
      ((i + d : Nat) : Int) ≤ kh →
      d < fuel →
      calcScan c hc sym cc kh a fuel i 1 moms dest =
        ⟨GetMerkleRoot hc (moms ++ momsRangeAux c a cc kh i d),
         moms ++ momsRangeAux c a cc kh i d, dest, 2, some (i + d)⟩ := by
  intro d
  induction d with
  | zero =>
    intro fuel i moms dest n2 _ hfo hle hfuel
    cases fuel with
    | zero => omega
    | succ f =>
      rw [calcScan_step_own1 c hc sym cc kh a f i moms dest n2 (by simpa using hfo)
        (by simp at hle ⊢; omega)]
      simp [momsRangeAux]
  | succ d ih =>
    intro fuel i moms dest n2 hnone hfo hle hfuel
    cases fuel with
    | zero => omega
    | succ f =>
      have h0 : findOwn sym (blockNotas c kh i) = none := by
        simpa using hnone 0 (by omega)
      have hbr : ¬ ((i : Int) > kh) := by
        have : ((i + (d + 1) : Nat) : Int) ≤ kh := hle
        push_cast at this ⊢
        omega
      rw [calcScan_step_none c hc sym cc kh a f i 1 moms dest h0 hbr, if_pos rfl]
      have := ih f (i+1) (moms ++ blockMoms c a cc (blockNotas c kh i)) dest n2
        (fun k hk => by
          have := hnone (k+1) (by omega)
          simpa [Nat.add_assoc, Nat.add_comm 1 k] using this)
        (by
          have : i + 1 + d = i + (d + 1) := by omega
          rw [this]; exact hfo)
        (by
          have : i + 1 + d = i + (d + 1) := by omega
          rw [this]; exact hle)
        (by omega)
      rw [this]
      have hidx : i + 1 + d = i + (d + 1) := by omega
      rw [hidx]
      simp [momsRangeAux, List.append_assoc]

theorem calcScan_run0 (c : Chain) (hc : Hc) (sym : String) (cc : Nat)
    (kh : Int) (a : Nat) :
    ∀ d fuel i (moms : List Hash) (dest : Hash) (n1 : Notarisation),
      (∀ k, k < d → findOwn sym (blockNotas c kh (i + k)) = none) →
      findOwn sym (blockNotas c kh (i + d)) = some n1 →
      ((i + d : Nat) : Int) ≤ kh →
      d < fuel →
      calcScan c hc sym cc kh a fuel i 0 moms dest =
        calcScan c hc sym cc kh a (fuel - d - 1) (i + d + 1) 1
          (moms ++ blockMoms c a cc (blockNotas c kh (i + d))) n1.1 := by
  intro d
  induction d with
  | zero =>
    intro fuel i moms dest n1 _ hfo hle hfuel
    cases fuel with
    | zero => omega
    | succ f =>
      rw [calcScan_step_own0 c hc sym cc kh a f i moms dest n1 (by simpa using hfo)
        (by simp at hle ⊢; omega)]
      simp
  | succ d ih =>
    intro fuel i moms dest n1 hnone hfo hle hfuel
    cases fuel with
    | zero => omega
    | succ f =>
      have h0 : findOwn sym (blockNotas c kh i) = none := by
        simpa using hnone 0 (by omega)
      have hbr : ¬ ((i : Int) > kh) := by
        have : ((i + (d + 1) : Nat) : Int) ≤ kh := hle
        push_cast at this ⊢
        omega
      rw [calcScan_step_none c hc sym cc kh a f i 0 moms dest h0 hbr]
      simp only [if_neg (by omega : ¬ (0 = 1))]
      have := ih f (i+1) moms dest n1
        (fun k hk => by
          have := hnone (k+1) (by omega)
          simpa [Nat.add_assoc, Nat.add_comm 1 k] using this)
        (by
          have : i + 1 + d = i + (d + 1) := by omega
          rw [this]; exact hfo)
        (by
          have : i + 1 + d = i + (d + 1) := by omega
          rw [this]; exact hle)
        (by omega)
      rw [this]
      have h1 : i + 1 + d = i + (d + 1) := by omega
      have h2 : f - d - 1 = f + 1 - (d + 1) - 1 := by omega
      rw [h1, h2]

theorem scanGo_frame (c c' : Chain) (f : Notarisation → Bool) :
    ∀ fuel h,
      (∀ h', h ≤ h' → h' < h + fuel → c.notarisations h' = c'.notarisations h') →
      scanGo c f h fuel = scanGo c' f h fuel := by
  intro fuel
  induction fuel with
  | zero => intro h _; rfl
  | succ n ih =>
    intro h hag
    have h0 : c.notarisations h = c'.notarisations h := hag h (Nat.le_refl h) (by omega)
    simp only [scanGo, h0]
    cases hfo : ((c'.notarisations h).getD []).find? f with
    | some m => simp [hfo]
    | none =>
      simp only [hfo]
      exact ih (h+1) (fun h' hlo hhi => hag h' (by omega) (by omega))

theorem scanGo_none (c : Chain) (f : Notarisation → Bool) :
    ∀ fuel h,
      (∀ h', h ≤ h' → h' < h + fuel → ((c.notarisations h').getD []).find? f = none) →
      scanGo c f h fuel = (0, none) := by
  intro fuel
  induction fuel with
  | zero => intro h _; rfl
  | succ n ih =>
    intro h hnone
    have h0 : ((c.notarisations h).getD []).find? f = none :=
      hnone h (Nat.le_refl h) (by omega)
    simp only [scanGo, h0]
    exact ih (h+1) (fun h' hlo hhi => hnone h' (by omega) (by omega))

theorem scanGo_found (c : Chain) (f : Notarisation → Bool) :
    ∀ fuel h k n, scanGo c f h fuel = (k, some n) → f n = true := by
  intro fuel
  induction fuel with
  | zero => intro h k n heq; simp [scanGo] at heq
  | succ m ih =>
    intro h k n heq
    simp only [scanGo] at heq
    cases hfo : ((c.notarisations h).getD []).find? f with
    | some x =>
      rw [hfo] at heq
      simp at heq
      rw [← heq.2]
      exact List.find?_some hfo
    | none =>
      rw [hfo] at heq
      exact ih (h+1) k n heq

theorem momsRangeAux_mem (c : Chain) (a cc : Nat) (kh : Int) :
    ∀ d j m, m ∈ momsRangeAux c a cc kh j d →
      ∃ k, k < d ∧ ∃ nt ∈ blockNotas c kh (j + k),
        c.authority nt.2.symbol = a ∧ nt.2.ccId = cc ∧ m = nt.2.MoM := by
  intro d
  induction d with
  | zero => intro j m hm; simp [momsRangeAux] at hm
  | succ dd ih =>
    intro j m hm
    rw [momsRangeAux, List.mem_append] at hm
    rcases hm with hm | hm
    · unfold blockMoms at hm
      rw [List.mem_filterMap] at hm
      obtain ⟨nt, hnt, hsome⟩ := hm
      by_cases hcond : c.authority nt.2.symbol = a ∧ nt.2.ccId = cc
      · refine ⟨0, by omega, nt, by simpa using hnt, hcond.1, hcond.2, ?_⟩
        rw [if_pos hcond] at hsome
        exact (Option.some.inj hsome).symm
      · rw [if_neg hcond] at hsome
        cases hsome
    · obtain ⟨k, hk, nt, hnt, h1, h2, h3⟩ := ih (j+1) m hm
      exact ⟨k+1, by omega, nt, by rwa [show j + (k+1) = j+1+k by omega], h1, h2, h3⟩

/-- C9: MerkleBranch composition — the lower branch's siblings concatenated
before the upper branch's siblings, indices combined as
`(upper_index <<< len(lower_siblings)) ||| lower_index` — is associative,
in both the resulting sibling sequence and the resulting combined index. -/
theorem merkleBranch_comp_assoc (a b c : MerkleBranch) :
    (a.comp b).comp c = a.comp (b.comp c) := by
  unfold MerkleBranch.comp
  simp only [List.append_assoc, List.length_append, MerkleBranch.mk.injEq, and_true]
  rw [lor_shiftLeft_distrib, Nat.lor_assoc, ← Nat.shiftLeft_add,
    Nat.add_comm b.branch.length a.branch.length]

/-- C5: `CalculateProofRoot` with `targetCCid < 2`, a negative `kmdHeight`,
or `kmdHeight` above the chain tip returns a null root, an empty MoM vector
and a null `destNotarisationTxid`, whatever the chain holds. -/
theorem proofRoot_rejects_invalid_args (c : Chain) (hc : Hc) (sym : String)
    (cc : Nat) (kh : Int)
    (h : cc < 2 ∨ kh < 0 ∨ (c.tipHeight : Int) < kh) :
    CalculateProofRootFull c hc sym cc kh [] 0 = ⟨0, [], 0, 0, none⟩ := by
  by_cases h2 : cc < 2
  · simp [CalculateProofRootFull, h2]
  · have h' : kh < 0 ∨ (c.tipHeight : Int) < kh := by tauto
    simp [CalculateProofRootFull, h2, h']

/-- Witness for `proofRoot_rejects_invalid_args` at `targetCCid = 1`. -/
theorem proofRoot_rejects_invalid_args_witness :
    CalculateProofRootFull cH hcW "B" 1 2 [] 0 = ⟨0, [], 0, 0, none⟩ :=
  proofRoot_rejects_invalid_args cH hcW "B" 1 2 (Or.inl (by omega))

/-- C3: `CalculateProofRoot` returns a non-null MoMoM root only when the
scan's `seenOwnNotarisations` reached 2, and the 1→2 transition ends the
scan immediately: a block entered in state S1 that holds an own-symbol
notarisation makes the scan return with the MoM accumulator exactly as it
stood, appending no MoM from that block. -/
theorem proofRoot_requires_two_own :
    (∀ (c : Chain) (hc : Hc) (sym : String) (cc : Nat) (kh : Int)
        (moms0 : List Hash) (dest0 : Hash),
      (CalculateProofRootFull c hc sym cc kh moms0 dest0).root ≠ 0 →
      (CalculateProofRootFull c hc sym cc kh moms0 dest0).seenFinal = 2) ∧
    (∀ (c : Chain) (hc : Hc) (sym : String) (cc : Nat) (kh : Int) (a : Nat)
        (fuel i : Nat) (moms : List Hash) (dest : Hash) (n : Notarisation),
      findOwn sym (blockNotas c kh i) = some n →
      ((i : Nat) : Int) ≤ kh →
      calcScan c hc sym cc kh a (fuel+1) i 1 moms dest =
        ⟨GetMerkleRoot hc moms, moms, dest, 2, some i⟩) := by
  constructor
  · intro c hc sym cc kh moms0 dest0 h
    by_cases h1 : cc < 2
    · simp [CalculateProofRootFull, h1] at h
    · by_cases h2 : kh < 0 ∨ (c.tipHeight : Int) < kh
      · simp [CalculateProofRootFull, h1, h2] at h
      · simp only [CalculateProofRootFull, if_neg h1, if_neg h2] at h ⊢
        exact calcScan_root_seen c hc sym cc kh (c.authority sym) _ _ _ _ _ h
  · intro c hc sym cc kh a fuel i moms dest n hfo hle
    exact calcScan_step_own1 c hc sym cc kh a fuel i moms dest n hfo (by omega)

/-- Witness for `proofRoot_requires_two_own`: the example hub call returns
root 907 ≠ 0 with two own notarisations seen, and a concrete S1 step on the
block at offset 2 terminates without touching the accumulator. -/
theorem proofRoot_requires_two_own_witness :
    (CalculateProofRootFull cH hcW "B" 2 2 [] 0).seenFinal = 2 ∧
    calcScan cH hcW "B" 2 2 0 1 2 1 [9, 7] 33 =
      ⟨GetMerkleRoot hcW [9, 7], [9, 7], 33, 2, some 2⟩ :=
  ⟨proofRoot_requires_two_own.1 cH hcW "B" 2 2 [] 0 (by decide),
   proofRoot_requires_two_own.2 cH hcW "B" 2 2 0 0 2 [9, 7] 33 nB0 (by decide) (by decide)⟩

/-- C6: when the backward scan exhausts its window without the `goto end`
transition (no second own-symbol notarisation), all partial results are
discarded — null root, empty MoM vector, null `destNotarisationTxid` —
both for the raw scan from any intermediate S0/S1 state with arbitrary
accumulated MoMs, and for the full `CalculateProofRoot` call. -/
theorem proofRoot_exhaustion_discards :
    (∀ (c : Chain) (hc : Hc) (sym : String) (cc : Nat) (kh : Int) (a : Nat)
        (fuel i seen : Nat) (moms : List Hash) (dest : Hash),
      (calcScan c hc sym cc kh a fuel i seen moms dest).endBlock = none →
      calcScan c hc sym cc kh a fuel i seen moms dest =
        ⟨0, [], 0, (calcScan c hc sym cc kh a fuel i seen moms dest).seenFinal, none⟩) ∧
    (∀ (c : Chain) (hc : Hc) (sym : String) (cc : Nat) (kh : Int),
      (CalculateProofRootFull c hc sym cc kh [] 0).endBlock = none →
      CalculateProofRootFull c hc sym cc kh [] 0 =
        ⟨0, [], 0, (CalculateProofRootFull c hc sym cc kh [] 0).seenFinal, none⟩) := by
  constructor
  · intro c hc sym cc kh a fuel i seen moms dest h
    exact calcScan_exhaust c hc sym cc kh a fuel i seen moms dest h
  · intro c hc sym cc kh h
    by_cases h1 : cc < 2
    · simp [CalculateProofRootFull, h1]
    · by_cases h2 : kh < 0 ∨ (c.tipHeight : Int) < kh
      · simp [CalculateProofRootFull, h1, h2]
      · simp only [CalculateProofRootFull, if_neg h1, if_neg h2] at h ⊢
        exact calcScan_exhaust c hc sym cc kh (c.authority sym) _ _ _ _ _ h

/-- Witness for `proofRoot_exhaustion_discards` on the chain whose only
notarisations are two own-symbol ones inside a single block: the scan sees
one own notarisation, collects two MoMs, exhausts, and discards everything. -/
theorem proofRoot_exhaustion_discards_witness :
    calcScan cC7 hcW "A" 2 3 0 1440 0 0 [] 0 =
      ⟨0, [], 0, (calcScan cC7 hcW "A" 2 3 0 1440 0 0 [] 0).seenFinal, none⟩ ∧
    CalculateProofRootFull cC7 hcW "A" 2 3 [] 0 =
      ⟨0, [], 0, (CalculateProofRootFull cC7 hcW "A" 2 3 [] 0).seenFinal, none⟩ :=
  ⟨proofRoot_exhaustion_discards.1 cC7 hcW "A" 2 3 0 1440 0 0 [] 0 (by decide),
   proofRoot_exhaustion_discards.2 cC7 hcW "A" 2 3 (by decide)⟩

/-- C7 counterexample: on `cC7` the scanned block at offset 0 (height 3)
contains two notarisations of the scanned symbol A, yet the scan does not
terminate in that block — the first inner loop breaks at the first
own-symbol match, so the second notarisation is never counted: the scan
walks on past the block, `seenOwnNotarisations` ends at 1 and no S1→S2
transition ever fires. -/
theorem proofRoot_two_in_block_counterexample :
    (blockNotas cC7 3 0).countP (fun n => n.2.symbol == "A") = 2 ∧
    (CalculateProofRootFull cC7 hcW "A" 2 3 [] 0).seenFinal = 1 ∧
    (CalculateProofRootFull cC7 hcW "A" 2 3 [] 0).endBlock = none := by decide

/-- C7 amended: within one block the scan counts at most one own-symbol
notarisation — the first match. A block containing two own-symbol
notarisations therefore terminates the scan there only when the scan enters
it with one own notarisation already seen, in which case the first (not the
second) same-symbol notarisation of the block triggers S1→S2; entering with
none seen, the scan records the block's first own notarisation (S0→S1),
collects the block's matching MoMs, and continues with the next block. -/
theorem proofRoot_two_in_block_amended :
    (∀ (c : Chain) (hc : Hc) (sym : String) (cc : Nat) (kh : Int) (a : Nat)
        (fuel i : Nat) (moms : List Hash) (dest : Hash) (n : Notarisation),
      findOwn sym (blockNotas c kh i) = some n →
      ((i : Nat) : Int) ≤ kh →
      calcScan c hc sym cc kh a (fuel+1) i 1 moms dest =
        ⟨GetMerkleRoot hc moms, moms, dest, 2, some i⟩) ∧
    (∀ (c : Chain) (hc : Hc) (sym : String) (cc : Nat) (kh : Int) (a : Nat)
        (fuel i : Nat) (moms : List Hash) (dest : Hash) (n : Notarisation),
      findOwn sym (blockNotas c kh i) = some n →
      ((i : Nat) : Int) ≤ kh →
      calcScan c hc sym cc kh a (fuel+1) i 0 moms dest =
        calcScan c hc sym cc kh a fuel (i+1) 1
          (moms ++ blockMoms c a cc (blockNotas c kh i)) n.1) := by
  constructor
  · intro c hc sym cc kh a fuel i moms dest n hfo hle
    exact calcScan_step_own1 c hc sym cc kh a fuel i moms dest n hfo (by omega)
  · intro c hc sym cc kh a fuel i moms dest n hfo hle
    exact calcScan_step_own0 c hc sym cc kh a fuel i moms dest n hfo (by omega)

/-- Witness for `proofRoot_two_in_block_amended` on the double-notarisation
block of `cC7`: entered in S1 it ends the scan at once; entered in S0 it
counts only the first own notarisation and goes on scanning. -/
theorem proofRoot_two_in_block_amended_witness :
    calcScan cC7 hcW "A" 2 3 0 5 0 1 [6] 9 = ⟨GetMerkleRoot hcW [6], [6], 9, 2, some 0⟩ ∧
    calcScan cC7 hcW "A" 2 3 0 5 0 0 [] 0 =
      calcScan cC7 hcW "A" 2 3 0 4 1 1 ([] ++ blockMoms cC7 0 2 (blockNotas cC7 3 0)) 41 :=
  ⟨proofRoot_two_in_block_amended.1 cC7 hcW "A" 2 3 0 4 0 [6] 9
      (41, ⟨"A", 2, 0, 11, 1, 41⟩) (by decide) (by decide),
   proofRoot_two_in_block_amended.2 cC7 hcW "A" 2 3 0 4 0 [] 0
      (41, ⟨"A", 2, 0, 11, 1, 41⟩) (by decide) (by decide)⟩

/-- C4: characterisation of a successful `CalculateProofRoot` scan. With the
first own-symbol notarisation found at backward offset `j1` and the second
at offset `j2`, the returned MoM vector is exactly the authority- and
ccId-filtered MoMs of the blocks at offsets `j1 ≤ j < j2`, in discovery
order: collection starts in the very block holding the first own
notarisation, happens only while exactly one own notarisation has been seen,
and excludes the terminating block. Moreover every collected MoM stems from
a notarisation whose symbol resolves to the target symbol's authority and
whose ccId equals `targetCCid`. -/
theorem proofRoot_moms_characterisation (c : Chain) (hc : Hc) (sym : String)
    (cc : Nat) (kh : Int) (j1 j2 : Nat) (n1 n2 : Notarisation)
    (hcc : 2 ≤ cc) (hkh0 : 0 ≤ kh) (hkhT : kh ≤ (c.tipHeight : Int))
    (hpre : ∀ k, k < j1 → findOwn sym (blockNotas c kh k) = none)
    (hj1 : findOwn sym (blockNotas c kh j1) = some n1)
    (hmid : ∀ k, j1 < k → k < j2 → findOwn sym (blockNotas c kh k) = none)
    (hj2 : findOwn sym (blockNotas c kh j2) = some n2)
    (hlt : j1 < j2) (hle : (j2 : Int) ≤ kh)
    (hwin : j2 < NOTARISATION_SCAN_LIMIT_BLOCKS) :
    CalculateProofRootFull c hc sym cc kh [] 0 =
      ⟨GetMerkleRoot hc (momsRange c (c.authority sym) cc kh j1 j2),
       momsRange c (c.authority sym) cc kh j1 j2, n1.1, 2, some j2⟩ ∧
    ∀ m ∈ momsRange c (c.authority sym) cc kh j1 j2,
      ∃ j, j1 ≤ j ∧ j < j2 ∧ ∃ nt ∈ blockNotas c kh j,
        c.authority nt.2.symbol = c.authority sym ∧ nt.2.ccId = cc ∧ m = nt.2.MoM := by
  constructor
  · have h1 : ¬ (cc < 2) := by omega
    have h2 : ¬ (kh < 0 ∨ (c.tipHeight : Int) < kh) := by
      rintro (h | h) <;> omega
    simp only [CalculateProofRootFull, if_neg h1, if_neg h2]
    have hj1' : ((j1 : Nat) : Int) ≤ kh := by
      have : (j1 : Int) ≤ (j2 : Int) := by exact_mod_cast Nat.le_of_lt hlt
      omega
    have hrun0 := calcScan_run0 c hc sym cc kh (c.authority sym) j1
      NOTARISATION_SCAN_LIMIT_BLOCKS 0 [] 0 n1
      (fun k hk => by simpa using hpre k hk)
      (by simpa using hj1)
      (by simpa using hj1')
      (by omega)
    simp only [Nat.zero_add] at hrun0
    rw [hrun0]
    have hrun1 := calcScan_run1 c hc sym cc kh (c.authority sym) (j2 - j1 - 1)
      (NOTARISATION_SCAN_LIMIT_BLOCKS - j1 - 1) (j1 + 1)
      ([] ++ blockMoms c (c.authority sym) cc (blockNotas c kh j1)) n1.1 n2
      (fun k hk => by
        rw [show j1 + 1 + k = j1 + (1 + k) from by omega]
        exact hmid (j1 + (1 + k)) (by omega) (by omega))
      (by rw [show j1 + 1 + (j2 - j1 - 1) = j2 from by omega]; exact hj2)
      (by rw [show j1 + 1 + (j2 - j1 - 1) = j2 from by omega]; exact hle)
      (by omega)
    rw [hrun1]
    have hmr : momsRange c (c.authority sym) cc kh j1 j2 =
        blockMoms c (c.authority sym) cc (blockNotas c kh j1) ++
          momsRangeAux c (c.authority sym) cc kh (j1 + 1) (j2 - j1 - 1) := by
      unfold momsRange
      rw [show j2 - j1 = (j2 - j1 - 1) + 1 from by omega]
      rfl
    rw [hmr]
    simp [show j1 + 1 + (j2 - j1 - 1) = j2 from by omega]
  · intro m hm
    unfold momsRange at hm
    obtain ⟨k, hk, nt, hnt, ha, hcid, hmom⟩ :=
      momsRangeAux_mem c (c.authority sym) cc kh (j2 - j1) j1 m hm
    exact ⟨j1 + k, by omega, by omega, nt, hnt, ha, hcid, hmom⟩

/-- Witness for `proofRoot_moms_characterisation` on the example hub chain:
first own B-notarisation at offset 0, second at offset 2; the MoM vector is
the window of offsets 0 and 1. -/
theorem proofRoot_moms_characterisation_witness :
    CalculateProofRootFull cH hcW "B" 2 2 [] 0 =
      ⟨GetMerkleRoot hcW (momsRange cH (cH.authority "B") 2 2 0 2),
       momsRange cH (cH.authority "B") 2 2 0 2, 33, 2, some 2⟩ :=
  (proofRoot_moms_characterisation cH hcW "B" 2 2 0 2 nB1 nB0
    (by omega) (by omega) (by decide)
    (fun k hk => absurd hk (by omega))
    (by decide)
    (fun k h1 h2 => by
      have hk1 : k = 1 := by omega
      subst hk1
      decide)
    (by decide) (by omega) (by decide) (by decide)).1

/-- C10: `ScanNotarisationsFromHeight(nHeight, f, found)` examines only
heights `nHeight ≤ h < min(nHeight + NOTARISATION_SCAN_LIMIT_BLOCKS, tip)`
— its result is unchanged by any edit outside that range, so in particular
a notarisation present only in the chain-tip block is never found — and it
returns 0 both when no matching notarisation exists in the range and when
the first match sits at height 0; callers (`GetCrossChainProof`,
`GetAssetchainProof`, `GetNextBacknotarisation`) test that return value
against zero, so a genesis-height match is indistinguishable from failure. -/
theorem scanNotarisations_window :
    (∀ (c c' : Chain) (nHeight : Nat) (f : Notarisation → Bool),
      c.tipHeight = c'.tipHeight →
      (∀ h, nHeight ≤ h →
        h < min (nHeight + NOTARISATION_SCAN_LIMIT_BLOCKS) c.tipHeight →
        c.notarisations h = c'.notarisations h) →
      ScanNotarisationsFromHeight c nHeight f = ScanNotarisationsFromHeight c' nHeight f) ∧
    (∀ (c : Chain) (nHeight : Nat) (f : Notarisation → Bool),
      (∀ h, nHeight ≤ h →
        h < min (nHeight + NOTARISATION_SCAN_LIMIT_BLOCKS) c.tipHeight →
        ((c.notarisations h).getD []).find? f = none) →
      ScanNotarisationsFromHeight c nHeight f = (0, none)) ∧
    (∀ (c : Chain) (f : Notarisation → Bool) (n : Notarisation),
      ((c.notarisations 0).getD []).find? f = some n →
      (ScanNotarisationsFromHeight c 0 f).1 = 0) := by
  refine ⟨?_, ?_, ?_⟩
  · intro c c' nHeight f htip hag
    unfold ScanNotarisationsFromHeight
    rw [← htip]
    exact scanGo_frame c c' f _ nHeight (fun h' hlo hhi => hag h' hlo (by omega))
  · intro c nHeight f hnone
    unfold ScanNotarisationsFromHeight
    exact scanGo_none c f _ nHeight (fun h' hlo hhi => hnone h' hlo (by omega))
  · intro c f n hfind
    unfold ScanNotarisationsFromHeight
    rcases hfuel : min (0 + NOTARISATION_SCAN_LIMIT_BLOCKS) c.tipHeight - 0 with _ | k
    · rfl
    · simp [scanGo, hfind]

/-- Witness for `scanNotarisations_window`: the tip-only notarisation of `cS`
is invisible (the scan equals the scan of the bare chain and returns 0), and
the genesis-height match of `cS0` also yields return value 0. -/
theorem scanNotarisations_window_witness :
    ScanNotarisationsFromHeight cS 1 isX = ScanNotarisationsFromHeight cSbare 1 isX ∧
    ScanNotarisationsFromHeight cS 1 isX = (0, none) ∧
    (ScanNotarisationsFromHeight cS0 0 isX).1 = 0 :=
  ⟨scanNotarisations_window.1 cS cSbare 1 isX rfl
    (fun h h1 h2 => by
      have hh : h = 1 := by
        have : min (1 + NOTARISATION_SCAN_LIMIT_BLOCKS) cS.tipHeight = 2 := by decide
        omega
      subst hh
      decide),
   scanNotarisations_window.2.1 cS 1 isX
    (fun h h1 h2 => by
      have hh : h = 1 := by
        have : min (1 + NOTARISATION_SCAN_LIMIT_BLOCKS) cS.tipHeight = 2 := by decide
        omega
      subst hh
      decide),
   scanNotarisations_window.2.2 cS0 isX nX (by decide)⟩

/-- C1: when `GetAssetchainProof` succeeds — with the transaction confirmed
in block `bh` and the forward scan selecting the own-symbol notarisation
`nota` — the returned TxProof carries `nota.txHash` and a branch whose
execution on the transaction hash reproduces `nota.MoM`; the function
verifies this equality itself (`Failed validating MoM`) and throws rather
than return a proof that does not reproduce the MoM. -/
theorem assetchainProof_exec_MoM (c : Chain) (hc : Hc) (hash : Hash)
    (p : TxProof) (bh : Hash) (k : Nat) (nota : Notarisation)
    (htx : c.txBlockHash hash = some bh)
    (hscan : ScanNotarisationsFromHeight c (c.blockHeightOf bh)
      (apIsTarget c (c.blockHeightOf bh)) = (k+1, some nota))
    (hok : GetAssetchainProof c hc hash = .ok p) :
    p.1 = nota.2.txHash ∧ MerkleBranch.Exec hc p.2 hash = nota.2.MoM := by
  simp only [GetAssetchainProof, htx] at hok
  by_cases hz : bh = 0
  · rw [if_pos hz] at hok; cases hok
  · rw [if_neg hz] at hok
    split at hok
    · rename_i heq
      rw [hscan] at heq
      simp at heq
    · rename_i heq
      rw [hscan] at heq
      simp at heq
    rename_i m nota' heq
    rw [hscan] at heq
    obtain ⟨hm, hn⟩ : k + 1 = m + 1 ∧ some nota = some nota' := by
      exact ⟨congrArg Prod.fst heq, congrArg Prod.snd heq⟩
    obtain rfl : nota = nota' := Option.some.inj hn
    by_cases hchk : SafeCheckMerkleBranch hc (c.blockMerkleRoot (c.blockHeightOf bh))
        (merkleBranch hc (apLeaves c nota) (nota.2.height - c.blockHeightOf bh))
        (nota.2.height - c.blockHeightOf bh) ≠ nota.2.MoM
    · rw [if_pos hchk] at hok; cases hok
    · rw [if_neg hchk] at hok
      rcases htxs : c.blockTxs (c.blockHeightOf bh) with _ | txs
      · simp only [htxs] at hok
        cases hok
      · simp only [htxs] at hok
        rcases hidx : txs.findIdx? (· == hash) with _ | nTxIndex
        · simp only [hidx] at hok
          cases hok
        · simp only [hidx] at hok
          by_cases hchk2 : c.blockMerkleRoot (c.blockHeightOf bh) ≠
              CheckMerkleBranch hc hash (merkleBranch hc txs nTxIndex) nTxIndex
          · rw [if_pos hchk2] at hok; cases hok
          · rw [if_neg hchk2] at hok
            by_cases hchk3 : nota.2.MoM ≠ CheckMerkleBranch hc hash
                (merkleBranch hc txs nTxIndex ++
                  merkleBranch hc (apLeaves c nota) (nota.2.height - c.blockHeightOf bh))
                ((nota.2.height - c.blockHeightOf bh) <<<
                  (merkleBranch hc txs nTxIndex).length + nTxIndex)
            · rw [if_pos hchk3] at hok; cases hok
            · rw [if_neg hchk3] at hok
              rw [not_ne_iff] at hchk3
              have hp := (Except.ok.injEq _ _).mp hok
              subst hp
              exact ⟨rfl, hchk3.symm⟩

/-- Witness for `assetchainProof_exec_MoM` on the concrete assetchain `cA`:
the returned proof (txHash 99, trivial branch) reproduces `notaA`'s MoM. -/
theorem assetchainProof_exec_MoM_witness :
    (99 : Hash) = notaA.2.txHash ∧
    MerkleBranch.Exec hcW (⟨0, []⟩ : MerkleBranch) 5 = notaA.2.MoM :=
  assetchainProof_exec_MoM cA hcW 5 (99, ⟨0, []⟩) 10 0 notaA rfl (by decide) rfl

/-- C8: in `GetAssetchainProof` the MoM leaf index is
`nIndex = nota.height - tx_block_height` over a most-recent-first leaf
window (leaf 0 is the block Merkle root at `nota.height`, the last leaf is
at `nota.height - MoMDepth + 1`), so within the window the leaf at `nIndex`
is the transaction's block Merkle root; and when `SafeCheckMerkleBranch` of
the block Merkle root along the derived branch does not reproduce
`nota.MoM`, the call fails with `MerkleInconsistency`
(`Failed merkle block->MoM`) instead of returning. -/
theorem assetchainProof_leaf_index (c : Chain) (hc : Hc) (hash : Hash)
    (bh : Hash) (k : Nat) (nota : Notarisation)
    (htx : c.txBlockHash hash = some bh) (hz : bh ≠ 0)
    (hscan : ScanNotarisationsFromHeight c (c.blockHeightOf bh)
      (apIsTarget c (c.blockHeightOf bh)) = (k+1, some nota)) :
    (nota.2.height - c.blockHeightOf bh < nota.2.MoMDepth →
      (apLeaves c nota)[nota.2.height - c.blockHeightOf bh]? =
        some (c.blockMerkleRoot (c.blockHeightOf bh))) ∧
    (SafeCheckMerkleBranch hc (c.blockMerkleRoot (c.blockHeightOf bh))
        (merkleBranch hc (apLeaves c nota) (nota.2.height - c.blockHeightOf bh))
        (nota.2.height - c.blockHeightOf bh) ≠ nota.2.MoM →
      GetAssetchainProof c hc hash = .error .MerkleInconsistency) := by
  have hpred : apIsTarget c (c.blockHeightOf bh) nota = true := by
    have hgo : scanGo c (apIsTarget c (c.blockHeightOf bh)) (c.blockHeightOf bh)
        (min (c.blockHeightOf bh + NOTARISATION_SCAN_LIMIT_BLOCKS) c.tipHeight
          - c.blockHeightOf bh) = (k+1, some nota) := hscan
    exact scanGo_found c _ _ _ _ _ hgo
  have hle : c.blockHeightOf bh ≤ nota.2.height := by
    unfold apIsTarget at hpred
    simp only [Bool.and_eq_true, decide_eq_true_eq] at hpred
    exact hpred.2
  constructor
  · intro hwin
    unfold apLeaves
    rw [List.getElem?_map]
    simp [List.getElem?_range, hwin]
    congr 1
    omega
  · intro hfail
    simp only [GetAssetchainProof, htx]
    rw [if_neg hz]
    split
    · rename_i heq
      rw [hscan] at heq
      simp at heq
    · rename_i heq
      rw [hscan] at heq
      simp at heq
    rename_i m nota' heq
    rw [hscan] at heq
    obtain rfl : nota = nota' := Option.some.inj (congrArg Prod.snd heq)
    rw [if_pos hfail]

/-- Witness for `assetchainProof_leaf_index`: on `cA` the window leaf at the
computed index is block 1's Merkle root; on `cA8` (corrupted MoM) the call
fails with `MerkleInconsistency`. -/
theorem assetchainProof_leaf_index_witness :
    (apLeaves cA notaA)[notaA.2.height - cA.blockHeightOf 10]? =
      some (cA.blockMerkleRoot (cA.blockHeightOf 10)) ∧
    GetAssetchainProof cA8 hcW 5 = .error .MerkleInconsistency :=
  ⟨(assetchainProof_leaf_index cA hcW 5 10 0 notaA rfl (by decide) (by decide)).1
      (by decide),
   (assetchainProof_leaf_index cA8 hcW 5 10 0 notaA8 rfl (by decide) (by decide)).2
      (by decide)⟩

/-- C2: when `GetCrossChainProof` succeeds — its source notarisation
anchored at hub height `kh0` — the forward scan found a target notarisation
(non-zero height), the returned branch executed on the transaction hash
equals the (non-null) MoMoM root computed by `CalculateProofRoot` at that
forward-scanned height, and the returned first component is the
`destNotarisationTxid` produced by that same proof-root computation; the
function checks the composed branch itself (`Proof check failed`) before
returning. -/
theorem crossChainProof_exec_MoMoM (c : Chain) (hc : Hc) (txid : Hash)
    (sym : String) (cc : Nat) (proof : TxProof) (r : TxProof) (kh0 : Nat)
    (hh : c.confirmedHeight proof.1 = some kh0)
    (hok : GetCrossChainProof c hc txid sym cc proof = .ok r) :
    (ScanNotarisationsFromHeight c kh0 (ccpIsTarget sym)).1 ≠ 0 ∧
    MerkleBranch.Exec hc r.2 txid =
      (CalculateProofRootFull c hc sym cc
        (((ScanNotarisationsFromHeight c kh0 (ccpIsTarget sym)).1 : Nat) : Int) [] 0).root ∧
    (CalculateProofRootFull c hc sym cc
        (((ScanNotarisationsFromHeight c kh0 (ccpIsTarget sym)).1 : Nat) : Int) [] 0).root ≠ 0 ∧
    r.1 = (CalculateProofRootFull c hc sym cc
        (((ScanNotarisationsFromHeight c kh0 (ccpIsTarget sym)).1 : Nat) : Int) [] 0).destNotarisationTxid := by
  simp only [GetCrossChainProof, hh] at hok
  split at hok
  · cases hok
  rename_i m x heq
  rw [heq]
  by_cases hroot : (CalculateProofRootFull c hc sym cc ((m + 1 : Nat) : Int) [] 0).root = 0
  · rw [if_pos hroot] at hok; cases hok
  · rw [if_neg hroot] at hok
    rcases hidx : (CalculateProofRootFull c hc sym cc ((m + 1 : Nat) : Int) [] 0).moms.findIdx?
        (· == MerkleBranch.Exec hc proof.2 txid) with _ | nIndex
    · simp only [hidx] at hok
      cases hok
    · simp only [hidx] at hok
      by_cases hchk : MerkleBranch.Exec hc
          (proof.2.comp ⟨nIndex, merkleBranch hc
            (CalculateProofRootFull c hc sym cc ((m + 1 : Nat) : Int) [] 0).moms nIndex⟩) txid ≠
          (CalculateProofRootFull c hc sym cc ((m + 1 : Nat) : Int) [] 0).root
      · rw [if_pos hchk] at hok; cases hok
      · rw [if_neg hchk] at hok
        rw [not_ne_iff] at hchk
        have hp := (Except.ok.injEq _ _).mp hok
        subst hp
        exact ⟨Nat.succ_ne_zero m, hchk, hroot, rfl⟩

/-- Witness for `crossChainProof_exec_MoMoM` on the example hub chain: the
returned branch `⟨1, [9]⟩` run on txid 7 reproduces the MoMoM 907 tied to
backnotarisation txid 33. -/
theorem crossChainProof_exec_MoMoM_witness :
    (ScanNotarisationsFromHeight cH 2 (ccpIsTarget "B")).1 ≠ 0 ∧
    MerkleBranch.Exec hcW (⟨1, [9]⟩ : MerkleBranch) 7 =
      (CalculateProofRootFull cH hcW "B" 2
        (((ScanNotarisationsFromHeight cH 2 (ccpIsTarget "B")).1 : Nat) : Int) [] 0).root ∧
    (CalculateProofRootFull cH hcW "B" 2
        (((ScanNotarisationsFromHeight cH 2 (ccpIsTarget "B")).1 : Nat) : Int) [] 0).root ≠ 0 ∧
    (33 : Hash) = (CalculateProofRootFull cH hcW "B" 2
        (((ScanNotarisationsFromHeight cH 2 (ccpIsTarget "B")).1 : Nat) : Int) [] 0).destNotarisationTxid :=
  crossChainProof_exec_MoMoM cH hcW 7 "B" 2 (50, ⟨0, []⟩) (33, ⟨1, [9]⟩) 2 rfl rfl
